import Mathlib

/-!
# Verification of the BrasilIntel matching and deduplication pipeline

Shallow embedding of the article-to-insurer matching and deduplication core:

* `app/services/insurer_matcher.py` — `InsurerMatcher._normalize_text`,
  `InsurerMatcher._deterministic_match`, `InsurerMatcher.match_article`;
* `app/services/ai_matcher.py` — `AIInsurerMatcher.ai_match` (the external
  Azure OpenAI structured-completion call is a parameter of the embedding);
* `app/services/deduplicator.py` — `_UnionFind`, `ArticleDeduplicator.deduplicate`,
  `ArticleDeduplicator._merge_articles` (the external sentence-transformer cosine
  similarity matrix is a parameter of the embedding).

Python strings are modelled as lists of Unicode code points (`List Nat`).
The behaviour of the external `unicodedata` module (NFKD decomposition and
combining-class tests), of `str.lower`, `str.strip` and of the regex word
class used by the matcher is modelled concretely for the Basic Latin and
Latin-1 repertoire that the Brazilian-Portuguese pipeline operates on;
outside that repertoire the model treats code points as undecomposable,
matching `unicodedata` for the overwhelming majority of code points.
-/

/-- Code points of a Lean string literal, used to write concrete inputs. -/
def ofString (s : String) : List Nat :=
  s.toList.map Char.toNat

/-- Decimal digits of a natural number as code points (Python `f"{n}"`). -/
def natToAscii (n : Nat) : List Nat :=
  (Nat.repr n).toList.map Char.toNat

/-- Model of `unicodedata.combining(c) != 0` restricted to the combining
diacritical marks block U+0300–U+036F (grave, acute, circumflex, tilde,
diaeresis, ring above, cedilla, ... — every mark produced by the NFKD
decompositions below lies in this block). -/
def combiningChar (c : Nat) : Bool :=
  768 ≤ c && c ≤ 879

/-- Model of per-character NFKD decomposition (`unicodedata.normalize('NFKD', ...)`)
for the Latin-1 precomposed letters; all other code points are returned
undecomposed.  Marks: 768 grave, 769 acute, 770 circumflex, 771 tilde,
776 diaeresis, 778 ring above, 807 cedilla. -/
def nfkdChar (c : Nat) : List Nat :=
  if c < 192 ∨ 255 < c then [c]
  else if c = 192 then [65, 768] else if c = 193 then [65, 769]
  else if c = 194 then [65, 770] else if c = 195 then [65, 771]
  else if c = 196 then [65, 776] else if c = 197 then [65, 778]
  else if c = 199 then [67, 807]
  else if c = 200 then [69, 768] else if c = 201 then [69, 769]
  else if c = 202 then [69, 770] else if c = 203 then [69, 776]
  else if c = 204 then [73, 768] else if c = 205 then [73, 769]
  else if c = 206 then [73, 770] else if c = 207 then [73, 776]
  else if c = 209 then [78, 771]
  else if c = 210 then [79, 768] else if c = 211 then [79, 769]
  else if c = 212 then [79, 770] else if c = 213 then [79, 771]
  else if c = 214 then [79, 776]
  else if c = 217 then [85, 768] else if c = 218 then [85, 769]
  else if c = 219 then [85, 770] else if c = 220 then [85, 776]
  else if c = 221 then [89, 769]
  else if c = 224 then [97, 768] else if c = 225 then [97, 769]
  else if c = 226 then [97, 770] else if c = 227 then [97, 771]
  else if c = 228 then [97, 776] else if c = 229 then [97, 778]
  else if c = 231 then [99, 807]
  else if c = 232 then [101, 768] else (if c = 233 then [101, 769]
  else if c = 234 then [101, 770] else if c = 235 then [101, 776]
  else if c = 236 then [105, 768] else if c = 237 then [105, 769]
  else if c = 238 then [105, 770] else if c = 239 then [105, 776]
  else if c = 241 then [110, 771]
  else if c = 242 then [111, 768] else if c = 243 then [111, 769]
  else if c = 244 then [111, 770] else if c = 245 then [111, 771]
  else if c = 246 then [111, 776]
  else if c = 249 then [117, 768] else if c = 250 then [117, 769]
  else if c = 251 then [117, 770] else if c = 252 then [117, 776]
  else if c = 253 then [121, 769] else if c = 255 then [121, 776]
  else [c])

/-- Model of `str.lower` per character: ASCII `A`–`Z` and the Latin-1
uppercase letters `À`–`Þ` (excluding `×`) map to their lowercase forms
(code point + 32); everything else is unchanged. -/
def toLowerChar (c : Nat) : Nat :=
  if 65 ≤ c ∧ c ≤ 90 then c + 32
  else if 192 ≤ c ∧ c ≤ 222 ∧ c ≠ 215 then c + 32
  else c

/-- Model of the whitespace class stripped by `str.strip` (ASCII whitespace
plus NEL and NBSP from Latin-1). -/
def isSpaceChar (c : Nat) : Bool :=
  c = 32 || (9 ≤ c && c ≤ 13) || c = 133 || c = 160

/-- `str.strip`: drop leading and trailing whitespace. -/
def stripWs (l : List Nat) : List Nat :=
  ((l.dropWhile isSpaceChar).reverse.dropWhile isSpaceChar).reverse

/-- `InsurerMatcher._normalize_text` (insurer_matcher.py:33-59): NFKD
decomposition, removal of combining characters, lowercasing, stripping.
The `if not text` guard returns the empty string on empty input. -/
def _normalize_text (text : List Nat) : List Nat :=
  if text = [] then []
  else stripWs (((text.flatMap nfkdChar).filter (fun c => !combiningChar c)).map toLowerChar)

/-- `InsurerMatcher._normalize_text` on an optional string: the Python
`if not text` guard also catches a `None` argument. -/
def _normalize_text_opt (text : Option (List Nat)) : List Nat :=
  match text with
  | none => []
  | some s => _normalize_text s

/-- Model of the regex word class `\w` (`[a-zA-Z0-9_]` plus the Latin-1
letters) used by the `\b` assertions in `_deterministic_match`. -/
def isWordChar (c : Nat) : Bool :=
  (48 ≤ c && c ≤ 57) || (65 ≤ c && c ≤ 90) || (97 ≤ c && c ≤ 122) || c == 95 ||
  c == 170 || c == 181 || c == 186 || (192 ≤ c && c ≤ 255 && c != 215 && c != 247)

/-- Whether position `i` of `content` holds a word character (out of range
counts as non-word, as at the ends of a Python string). -/
def wordAt (content : List Nat) (i : Nat) : Bool :=
  match content.get? i with
  | some c => isWordChar c
  | none => false

/-- Whether a regex `\b` word boundary holds before position `i`. -/
def boundaryAt (content : List Nat) (i : Nat) : Bool :=
  (if i = 0 then false else wordAt content (i - 1)) != wordAt content i

/-- Whether `term` occurs verbatim in `content` starting at position `i`. -/
def occursAt (term content : List Nat) (i : Nat) : Bool :=
  decide ((content.drop i).take term.length = term)

/-- Model of `re.search(rf'\b{re.escape(term)}\b', content) is not None`:
the escaped term occurs somewhere in `content` between two word boundaries. -/
def wordBoundarySearch (term content : List Nat) : Bool :=
  (List.range (content.length + 1)).any (fun i =>
    boundaryAt content i && occursAt term content i && boundaryAt content (i + term.length))

/-- The slice of the `Insurer` ORM model (app/models/insurer.py) consumed by
the matching pipeline.  A `NULL` `search_terms` column and an empty string
behave identically under the `if insurer.search_terms:` truthiness test, so
both are modelled as the empty list. -/
structure Insurer where
  id : Int
  name : List Nat
  search_terms : List Nat
  enabled : Bool
deriving DecidableEq

/-- An article dictionary as consumed by the matcher and the deduplicator
(keys documented at deduplicator.py:90-94): `title`, optional `description`
(absent modelled as empty), `source_name`, optional `published_at`. -/
structure Article where
  title : List Nat
  description : List Nat
  source_name : List Nat
  published_at : Option Nat
deriving DecidableEq

instance : Inhabited Article := ⟨⟨[], [], [], none⟩⟩

/-- `MatchMethod` literal type (app/schemas/matching.py:11-16). -/
inductive MatchMethod
  | deterministic_single
  | deterministic_multi
  | ai_disambiguation
  | unmatched
deriving DecidableEq

/-- `MatchResult` Pydantic model (app/schemas/matching.py:19-42). -/
structure MatchResult where
  insurer_ids : List Int
  confidence : ℚ
  method : MatchMethod
  reasoning : List Nat
deriving DecidableEq

/-- The comma-split, stripped, non-empty search terms of an insurer
(insurer_matcher.py:117-121). -/
def splitTerms (s : List Nat) : List (List Nat) :=
  ((s.splitOn 44).map stripWs).filter (fun t => t ≠ [])

/-- Whether one search term produces a hit (insurer_matcher.py:123-139):
normalized, at least 4 characters, and found with word boundaries. -/
def term_hit (content term : List Nat) : Bool :=
  let term_normalized := _normalize_text term
  (4 ≤ term_normalized.length) && wordBoundarySearch term_normalized content

/-- The per-insurer body of the `_deterministic_match` loop
(insurer_matcher.py:89-139): insurers whose normalized name is shorter than
4 characters are skipped entirely (`continue`); otherwise the name is tested
with word boundaries, and on a name miss each search term is tested in turn
(the `break` on the first term hit only affects logging, so a hit exists
iff some term hits). -/
def insurer_hit (content : List Nat) (ins : Insurer) : Bool :=
  let name_normalized := _normalize_text ins.name
  if name_normalized.length < 4 then false
  else if wordBoundarySearch name_normalized content then true
  else if ins.search_terms ≠ [] then (splitTerms ins.search_terms).any (term_hit content)
  else false

/-- `InsurerMatcher._deterministic_match` (insurer_matcher.py:61-141):
matched ids are appended in roster order, one per insurer that hits. -/
def _deterministic_match (article : Article) (insurers : List Insurer) : List Int :=
  let content := _normalize_text (article.title ++ [32] ++ article.description)
  if content = [] then []
  else (insurers.filter (insurer_hit content)).map Insurer.id

/-- `InsurerMatcher.match_article` (insurer_matcher.py:143-199). -/
def match_article (article : Article) (insurers : List Insurer) : MatchResult :=
  let matched_ids := _deterministic_match article insurers
  let match_count := matched_ids.length
  if match_count = 1 then
    let insurer_name := ((insurers.find? (fun i => i.id == matched_ids.headI)).map Insurer.name).getD []
    { insurer_ids := matched_ids, confidence := 0.95,
      method := MatchMethod.deterministic_single,
      reasoning := ofString "Exact name match: " ++ insurer_name }
  else if 2 ≤ match_count ∧ match_count ≤ 3 then
    { insurer_ids := matched_ids, confidence := 0.85,
      method := MatchMethod.deterministic_multi,
      reasoning := ofString "Found " ++ natToAscii match_count ++ ofString " name matches" }
  else if 3 < match_count then
    { insurer_ids := [], confidence := 0, method := MatchMethod.unmatched,
      reasoning := ofString "Too many matches (" ++ natToAscii match_count ++
        ofString "), needs AI disambiguation" }
  else
    { insurer_ids := [], confidence := 0, method := MatchMethod.unmatched,
      reasoning := ofString "No clear deterministic match" }

/-- Structured output parsed from the completion (ai_matcher.py:32-44,212);
the Pydantic `Field(ge=0.0, le=1.0)` bound on `confidence` is carried as a
hypothesis where needed. -/
structure ParsedResponse where
  insurer_ids : List Int
  confidence : ℚ
  reasoning : List Nat
deriving DecidableEq

/-- An `ApiEvent` row as written by `AIInsurerMatcher._record_event`
(ai_matcher.py:283-321); the event type is always `NEWS_FETCH` and the
api name always `"ai_matcher"`, so only the varying fields are modelled. -/
structure ApiEventRec where
  success : Bool
  run_id : Option Int
deriving DecidableEq

/-- Lexicographic order on code-point lists (Python `str` comparison). -/
def lexLe : List Nat → List Nat → Bool
  | [], _ => true
  | _ :: _, [] => false
  | a :: as_, b :: bs => if a < b then true else if b < a then false else lexLe as_ bs

/-- The sort key comparison `(not ins.enabled, ins.name.lower())`
(ai_matcher.py:163-166): enabled insurers first, then alphabetical. -/
def ctxLe (a b : Insurer) : Bool :=
  let ka := !a.enabled
  let kb := !b.enabled
  if ka = kb then lexLe (a.name.map toLowerChar) (b.name.map toLowerChar) else !ka && kb

instance : DecidableRel (fun a b : Insurer => ctxLe a b = true) :=
  fun a b => instDecidableEqBool (ctxLe a b) true

/-- `MAX_INSURER_CONTEXT` (ai_matcher.py:75). -/
def MAX_INSURER_CONTEXT : Nat := 200

/-- The insurer context sent to the model (ai_matcher.py:160-175): stable
sort by `(not enabled, name.lower())`, truncated to `MAX_INSURER_CONTEXT`
entries when longer (`List.insertionSort` is the stable sort, matching
Python `sorted`). -/
def contextInsurers (insurers : List Insurer) : List Insurer :=
  let sorted_insurers := List.insertionSort (fun a b => ctxLe a b = true) insurers
  if MAX_INSURER_CONTEXT < sorted_insurers.length
  then sorted_insurers.take MAX_INSURER_CONTEXT
  else sorted_insurers

/-- `AIInsurerMatcher.ai_match` (ai_matcher.py:129-281).  The external
structured-completion call is abstracted as `outcome`: `Except.ok` is a
successfully parsed response, `Except.error` carries the exception type
name raised by the call (timeouts, parse failures, exhausted retries).
`configured` is `self.client is not None`.  The returned list holds the
`ApiEvent` telemetry rows the call hands to `_record_event`. -/
def ai_match (configured : Bool) (article : Article) (insurers : List Insurer)
    (run_id : Option Int) (outcome : Except (List Nat) ParsedResponse) :
    MatchResult × List ApiEventRec :=
  if !configured then
    ({ insurer_ids := [], confidence := 0, method := MatchMethod.unmatched,
       reasoning := ofString "AI matching unavailable — Azure OpenAI not configured" }, [])
  else
    let sorted_insurers := contextInsurers insurers
    match outcome with
    | Except.ok parsed =>
        let valid_insurer_ids := sorted_insurers.map Insurer.id
        let validated_ids := parsed.insurer_ids.filter (fun i => decide (i ∈ valid_insurer_ids))
        ({ insurer_ids := validated_ids, confidence := parsed.confidence,
           method := MatchMethod.ai_disambiguation, reasoning := parsed.reasoning },
         [{ success := true, run_id := run_id }])
    | Except.error exc_name =>
        ({ insurer_ids := [], confidence := 0, method := MatchMethod.unmatched,
           reasoning := ofString "AI match failed: " ++ exc_name },
         [{ success := false, run_id := run_id }])

/-- The shape invariant on `MatchResult` stated in the data model (§3). -/
def shapeInv (r : MatchResult) : Prop :=
  (r.method = MatchMethod.unmatched → r.insurer_ids = [] ∧ r.confidence = 0) ∧
  (r.method = MatchMethod.deterministic_single → r.insurer_ids.length = 1) ∧
  (r.method = MatchMethod.deterministic_multi →
    2 ≤ r.insurer_ids.length ∧ r.insurer_ids.length ≤ 3) ∧
  0 ≤ r.confidence ∧ r.confidence ≤ 1

/-- `_UnionFind.find` with path halving (deduplicator.py:28-33).  The Python
`while` loop terminates because the parent array always encodes a forest;
the embedding makes the same loop structurally recursive on a fuel argument
that every caller instantiates with the array length, which bounds the path
length in a forest. -/
def ufFind : Nat → List Nat → Nat → Nat × List Nat
  | 0, parent, x => (x, parent)
  | fuel + 1, parent, x =>
    if parent.getD x x = x then (x, parent)
    else
      let grand := parent.getD (parent.getD x x) (parent.getD x x)
      ufFind fuel (parent.set x grand) grand

/-- `_UnionFind.union` (deduplicator.py:35-39): link the root of `x` under
the root of `y` (both `find` calls compress paths, in evaluation order). -/
def ufUnion (parent : List Nat) (x y : Nat) : List Nat :=
  let fx := ufFind parent.length parent x
  let fy := ufFind fx.2.length fx.2 y
  if fx.1 ≠ fy.1 then fy.2.set fx.1 fy.1 else fy.2

/-- The ordered pair list of the double loop `for i … for j in range(i+1, …)`
(deduplicator.py:124-125). -/
def simPairs (n : Nat) : List (Nat × Nat) :=
  ((List.range n).map (fun i => ((List.range n).drop (i + 1)).map (fun j => (i, j)))).flatten

/-- The union-find parent array after processing every similar pair
(deduplicator.py:120-128): `sim` is the cosine-similarity matrix computed
by the external sentence-transformer model, `threshold ≤ sim i j` is the
Python `similarity >= self.similarity_threshold`. -/
def dedupParent (sim : Nat → Nat → ℚ) (threshold : ℚ) (n : Nat) : List Nat :=
  (simPairs n).foldl
    (fun parent ij => if threshold ≤ sim ij.1 ij.2 then ufUnion parent ij.1 ij.2 else parent)
    (List.range n)

/-- Append index `i` to the group keyed by `root`, creating the group at the
end if absent — the insertion-order semantics of the Python dict in
`groups.setdefault`-style code (deduplicator.py:137-143). -/
def addToGroup : List (Nat × List Nat) → Nat → Nat → List (Nat × List Nat)
  | [], root, i => [(root, [i])]
  | g :: rest, root, i =>
    if g.1 = root then (g.1, g.2 ++ [i]) :: rest else g :: addToGroup rest root i

/-- One iteration of the grouping loop (deduplicator.py:139-143): `find`
the root of `i` (compressing paths) and file `i` under it. -/
def groupStep (st : List (Nat × List Nat) × List Nat) (i : Nat) :
    List (Nat × List Nat) × List Nat :=
  let fr := ufFind st.2.length st.2 i
  (addToGroup st.1 fr.1 i, fr.2)

/-- The groups of article indices by union-find root, in insertion order
(deduplicator.py:137-143). -/
def dedupGroups (sim : Nat → Nat → ℚ) (threshold : ℚ) (n : Nat) :
    List (Nat × List Nat) :=
  ((List.range n).foldl groupStep ([], dedupParent sim threshold n)).1

/-- Comparison on the merge sort key `a.get('published_at') or datetime.max`
(deduplicator.py:201-204): a missing timestamp sorts after every present
one. -/
def pubKeyLe (a b : Article) : Bool :=
  match a.published_at, b.published_at with
  | _, none => true
  | none, some _ => false
  | some x, some y => decide (x ≤ y)

instance : DecidableRel (fun a b : Article => pubKeyLe a b = true) :=
  fun a b => instDecidableEqBool (pubKeyLe a b) true

/-- `sorted(group_articles, key=…)` (deduplicator.py:201-204): Python
`sorted` is stable, as is `List.insertionSort`. -/
def sortByDate (l : List Article) : List Article :=
  List.insertionSort (fun a b => pubKeyLe a b = true) l

/-- The source-name merge loop (deduplicator.py:210-216): collect each
distinct `source_name` in sorted order, keeping first occurrences.  The
Python code keeps a list and a `seen` set that always hold the same names,
so one list with a membership test models both. -/
def dedupSources (l : List Article) : List (List Nat) :=
  l.foldl (fun sources a =>
    if a.source_name ∈ sources then sources else sources ++ [a.source_name]) []

/-- One step of Python `max(descriptions, key=len)`: keep the incumbent
unless the challenger is strictly longer (ties keep the first). -/
def pickLonger (best d : List Nat) : List Nat :=
  if best.length < d.length then d else best

/-- The group's articles, `group_articles = [articles[i] for i in indices]`
(deduplicator.py:198). -/
def group_articles (articles : List Article) (indices : List Nat) : List Article :=
  indices.map (fun i => articles.getD i default)

/-- `sorted_articles = sorted(group_articles, key=…)` (deduplicator.py:201-204). -/
def sorted_articles (articles : List Article) (indices : List Nat) : List Article :=
  sortByDate (group_articles articles indices)

/-- The non-empty descriptions of the sorted group, in sorted order
(deduplicator.py:221-225). -/
def merge_descriptions (articles : List Article) (indices : List Nat) : List (List Nat) :=
  ((sorted_articles articles indices).filter (fun a => a.description ≠ [])).map
    Article.description

/-- `ArticleDeduplicator._merge_articles` (deduplicator.py:178-229). -/
def _merge_articles (articles : List Article) (indices : List Nat) : Article :=
  let keeper := (sorted_articles articles indices).headI
  let keeper1 := { keeper with
    source_name := List.intercalate [44, 32] (dedupSources (sorted_articles articles indices)) }
  match merge_descriptions articles indices with
  | [] => keeper1
  | d :: rest => { keeper1 with description := rest.foldl pickLonger d }

/-- The per-group branch of the output loop (deduplicator.py:149-165):
merge groups of size > 1, pass single articles through unchanged. -/
def outStep (articles : List Article) (acc : List Article) (g : Nat × List Nat) :
    List Article :=
  if 1 < g.2.length then acc ++ [_merge_articles articles g.2]
  else acc ++ [articles.getD g.2.headI default]

/-- `ArticleDeduplicator.deduplicate` (deduplicator.py:81-176), parameterized
by the external cosine-similarity matrix `sim` and the configured
`similarity_threshold`. -/
def deduplicate (sim : Nat → Nat → ℚ) (threshold : ℚ) (articles : List Article) :
    List Article :=
  if articles.length ≤ 1 then articles
  else (dedupGroups sim threshold articles.length).foldl (outStep articles) []

/-- Keep-first-occurrence deduplication, written as the spec describes it
("ordered, de-duplicated concatenation … in ascending-date order"): keep
the head, drop its later duplicates, recurse. -/
def specDedupFirst : List (List Nat) → List (List Nat)
  | [] => []
  | x :: xs => x :: specDedupFirst (xs.filter (fun y => y ≠ x))
termination_by l => l.length
decreasing_by
  simp only [List.length_cons]
  exact Nat.lt_succ_of_le (List.length_filter_le _ _)

/-! ## Helper lemmas -/

/-- Any id in the deterministic match list comes from a roster insurer whose
normalized name has at least 4 characters (the short-name `continue` at
insurer_matcher.py:94-101 skips the whole loop body, search terms included). -/
theorem det_match_mem {article : Article} {insurers : List Insurer} {k : Int}
    (h : k ∈ _deterministic_match article insurers) :
    ∃ ins ∈ insurers, ins.id = k ∧ 4 ≤ (_normalize_text ins.name).length := by
  unfold _deterministic_match at h
  set content := _normalize_text (article.title ++ [32] ++ article.description) with hc
  by_cases hempty : content = []
  · simp [hempty] at h
  · rw [if_neg hempty] at h
    obtain ⟨ins, hins, hid⟩ := List.mem_map.1 h
    obtain ⟨hmem, hhit⟩ := List.mem_filter.1 hins
    refine ⟨ins, hmem, hid, ?_⟩
    unfold insurer_hit at hhit
    by_cases hlen : (_normalize_text ins.name).length < 4
    · simp [hlen] at hhit
    · omega

/-- An insurer whose normalized name is shorter than 4 characters can never
contribute its id to the deterministic match result, whatever its search
terms (shared consequence of `det_match_mem`). -/
theorem short_name_never_matched (article : Article) (insurers : List Insurer)
    (k : Int) (hshort : ∀ ins ∈ insurers, ins.id = k → (_normalize_text ins.name).length < 4) :
    k ∉ _deterministic_match article insurers := by
  intro hk
  obtain ⟨ins, hmem, hid, hlen⟩ := det_match_mem hk
  exact absurd (hshort ins hmem hid) (by omega)

/-! ## Claims -/

/-- C2: `match_article` maps the deterministic match count to method and
confidence exactly per the policy table: 1 match gives
`deterministic_single` at confidence 0.95; 2 or 3 matches give
`deterministic_multi` at 0.85; 0 matches and more than 3 matches give
`unmatched` at 0.0 with empty insurer ids. -/
theorem c2_arbiter_cardinality (article : Article) (insurers : List Insurer) :
    ((_deterministic_match article insurers).length = 1 →
      (match_article article insurers).method = MatchMethod.deterministic_single ∧
      (match_article article insurers).confidence = 0.95 ∧
      (match_article article insurers).insurer_ids = _deterministic_match article insurers) ∧
    ((_deterministic_match article insurers).length = 2 ∨
        (_deterministic_match article insurers).length = 3 →
      (match_article article insurers).method = MatchMethod.deterministic_multi ∧
      (match_article article insurers).confidence = 0.85 ∧
      (match_article article insurers).insurer_ids = _deterministic_match article insurers) ∧
    ((_deterministic_match article insurers).length = 0 ∨
        3 < (_deterministic_match article insurers).length →
      (match_article article insurers).method = MatchMethod.unmatched ∧
      (match_article article insurers).confidence = 0 ∧
      (match_article article insurers).insurer_ids = []) := by
  simp only [match_article]
  split_ifs with h1 h2 h3 <;>
    refine ⟨fun h => ?_, fun h => ?_, fun h => ?_⟩ <;>
    first
      | exact ⟨rfl, rfl, rfl⟩
      | omega

/-- Witness for C2 at the spec §8.10 end-to-end input: exactly one
deterministic match, hence `deterministic_single` at 0.95. -/
theorem c2_arbiter_cardinality_witness :
    (match_article ⟨ofString "Porto Seguro anuncia novo CEO", [], [], none⟩
        [⟨1, ofString "Porto Seguro", [], true⟩,
         ⟨2, ofString "SulAmérica", ofString "Sul America Seguros", true⟩]).method =
      MatchMethod.deterministic_single ∧
    (match_article ⟨ofString "Porto Seguro anuncia novo CEO", [], [], none⟩
        [⟨1, ofString "Porto Seguro", [], true⟩,
         ⟨2, ofString "SulAmérica", ofString "Sul America Seguros", true⟩]).confidence = 0.95 ∧
    (match_article ⟨ofString "Porto Seguro anuncia novo CEO", [], [], none⟩
        [⟨1, ofString "Porto Seguro", [], true⟩,
         ⟨2, ofString "SulAmérica", ofString "Sul America Seguros", true⟩]).insurer_ids =
      _deterministic_match ⟨ofString "Porto Seguro anuncia novo CEO", [], [], none⟩
        [⟨1, ofString "Porto Seguro", [], true⟩,
         ⟨2, ofString "SulAmérica", ofString "Sul America Seguros", true⟩] :=
  (c2_arbiter_cardinality
    ⟨ofString "Porto Seguro anuncia novo CEO", [], [], none⟩
    [⟨1, ofString "Porto Seguro", [], true⟩,
     ⟨2, ofString "SulAmérica", ofString "Sul America Seguros", true⟩]).1 (by decide)

/-- C3: on the success path, `ai_match` keeps only ids present in the
(sorted, possibly truncated-to-200) insurer context that was sent; in
particular returned ids [5, 999] against context ids 1, 5, 9 yield exactly
[5].  Dropped ids never fail the call (the result is still returned). -/
theorem c3_hallucination_guard :
    (∀ (article : Article) (insurers : List Insurer) (run_id : Option Int)
        (parsed : ParsedResponse),
      (ai_match true article insurers run_id (Except.ok parsed)).1.insurer_ids ⊆
        (contextInsurers insurers).map Insurer.id) ∧
    (ai_match true ⟨ofString "Caso ambíguo", [], [], none⟩
        [⟨1, ofString "Alfa Seguros", [], true⟩, ⟨5, ofString "Beta Seguros", [], true⟩,
         ⟨9, ofString "Gama Seguros", [], true⟩]
        none (Except.ok ⟨[5, 999], 0.9, ofString "menciona Beta"⟩)).1.insurer_ids = [5] := by
  constructor
  · intro article insurers run_id parsed x hx
    simp only [ai_match, Bool.not_true, Bool.false_eq_true, if_false] at hx
    exact of_decide_eq_true (List.mem_filter.1 hx).2
  · decide

/-- C4 (amended): when the structured-completion service is not configured
(`client is None`), `ai_match` returns `unmatched` with confidence 0.0,
empty insurer ids and the "AI matching unavailable" reasoning, raises no
exception — and records no telemetry event at all on this path (only a
warning is logged; `_record_event` is not called). -/
theorem c4_ai_unavailable (article : Article) (insurers : List Insurer)
    (run_id : Option Int) (outcome : Except (List Nat) ParsedResponse) :
    ai_match false article insurers run_id outcome =
      ({ insurer_ids := [], confidence := 0, method := MatchMethod.unmatched,
         reasoning := ofString "AI matching unavailable — Azure OpenAI not configured" },
       []) := by
  rfl

/-- Counterexample to C4 as stated: at a concrete unconfigured call the
event list is empty, so no failure telemetry event is recorded for the
unavailability (the claim asserts one is). -/
theorem c4_counterexample :
    ¬ ∃ e ∈ (ai_match false ⟨ofString "Título", [], [], none⟩ [] none
        (Except.error (ofString "boom"))).2, e.success = false := by
  decide

/-- C6: every `MatchResult` produced by `match_article` or `ai_match`
satisfies the shape invariant (`unmatched` implies empty ids and zero
confidence, `deterministic_single` exactly one id, `deterministic_multi`
2 or 3 ids, confidence within [0,1]); for the AI success path the Pydantic
`ge=0, le=1` bound on the parsed confidence is the hypothesis. -/
theorem c6_shape_invariant :
    (∀ (article : Article) (insurers : List Insurer),
      shapeInv (match_article article insurers)) ∧
    (∀ (configured : Bool) (article : Article) (insurers : List Insurer)
        (run_id : Option Int) (outcome : Except (List Nat) ParsedResponse),
      (∀ p, outcome = Except.ok p → 0 ≤ p.confidence ∧ p.confidence ≤ 1) →
      shapeInv (ai_match configured article insurers run_id outcome).1) := by
  constructor
  · intro article insurers
    unfold shapeInv
    simp only [match_article]
    split_ifs with h1 h2 h3
    · exact ⟨fun hm => by simp at hm, fun _ => h1, fun hm => by simp at hm,
        (by norm_num : (0:ℚ) ≤ 0.95), (by norm_num : (0.95:ℚ) ≤ 1)⟩
    · exact ⟨fun hm => by simp at hm, fun hm => by simp at hm, fun _ => h2,
        (by norm_num : (0:ℚ) ≤ 0.85), (by norm_num : (0.85:ℚ) ≤ 1)⟩
    · exact ⟨fun _ => ⟨rfl, rfl⟩, fun hm => by simp at hm, fun hm => by simp at hm,
        le_refl 0, zero_le_one⟩
    · exact ⟨fun _ => ⟨rfl, rfl⟩, fun hm => by simp at hm, fun hm => by simp at hm,
        le_refl 0, zero_le_one⟩
  · intro configured article insurers run_id outcome hconf
    unfold shapeInv
    cases configured
    · exact ⟨fun _ => ⟨rfl, rfl⟩, fun hm => by simp [ai_match] at hm,
        fun hm => by simp [ai_match] at hm, le_refl 0, zero_le_one⟩
    · cases outcome with
      | ok p =>
        obtain ⟨h0, h1⟩ := hconf p rfl
        exact ⟨fun hm => by simp [ai_match] at hm, fun hm => by simp [ai_match] at hm,
          fun hm => by simp [ai_match] at hm, h0, h1⟩
      | error e =>
        exact ⟨fun _ => ⟨rfl, rfl⟩, fun hm => by simp [ai_match] at hm,
          fun hm => by simp [ai_match] at hm, le_refl 0, zero_le_one⟩

/-- Witness for C6: the invariant holds at a concrete AI success call. -/
theorem c6_shape_invariant_witness :
    shapeInv (ai_match true ⟨ofString "Nota", [], [], none⟩
      [⟨7, ofString "Delta Seguros", [], true⟩] none
      (Except.ok ⟨[7], 0.5, ofString "menciona Delta"⟩)).1 :=
  c6_shape_invariant.2 true ⟨ofString "Nota", [], [], none⟩
    [⟨7, ofString "Delta Seguros", [], true⟩] none
    (Except.ok ⟨[7], 0.5, ofString "menciona Delta"⟩)
    (fun p hp => by injection hp with h; rw [← h]; norm_num)

/-- Counterexample to C1 as stated: insurer "AIG" (normalized name length
3 < 4) has the search term "American International Group", whose normalized
form has at least 4 characters and occurs with word boundaries in the
article text — yet `_deterministic_match` returns the empty list, because
the short-name `continue` skips the insurer's search terms as well. -/
theorem c1_counterexample :
    (_normalize_text (ofString "AIG")).length < 4 ∧
    term_hit
      (_normalize_text
        (ofString "American International Group anuncia resultados" ++ [32] ++ []))
      (ofString "American International Group") = true ∧
    splitTerms (ofString "American International Group") =
      [ofString "American International Group"] ∧
    _deterministic_match
      ⟨ofString "American International Group anuncia resultados", [], [], none⟩
      [⟨1, ofString "AIG", ofString "American International Group", true⟩] = [] := by
  refine ⟨by decide, by decide, by decide, by decide⟩

/-- C1 (amended): the short-name skip disables the insurer entirely, search
terms included: if every roster insurer bearing id `k` has a normalized
name of fewer than 4 characters, then `k` never appears in the result of
`_deterministic_match`, no matter what search terms those insurers carry. -/
theorem c1_short_name_skips_search_terms (article : Article) (insurers : List Insurer)
    (k : Int) (hshort : ∀ ins ∈ insurers, ins.id = k → (_normalize_text ins.name).length < 4) :
    k ∉ _deterministic_match article insurers :=
  short_name_never_matched article insurers k hshort

/-- Witness for C1 (amended) at the counterexample input. -/
theorem c1_short_name_skips_search_terms_witness :
    (1 : Int) ∉ _deterministic_match
      ⟨ofString "American International Group anuncia resultados", [], [], none⟩
      [⟨1, ofString "AIG", ofString "American International Group", true⟩] :=
  c1_short_name_skips_search_terms
    ⟨ofString "American International Group anuncia resultados", [], [], none⟩
    [⟨1, ofString "AIG", ofString "American International Group", true⟩] 1
    (by intro ins hmem _; simp at hmem; rw [hmem]; decide)

/-- Counterexample to C5 as stated: the insurer name "SulAmerica" normalizes
to the 10-character "sulamerica", but the article text "Sul América anuncia
resultado" normalizes to "sul america anuncia resultado" — the space means
the whole-word pattern never occurs, so the match the claim requires does
not happen. -/
theorem c5_counterexample :
    _normalize_text (ofString "SulAmerica") = ofString "sulamerica" ∧
    (_normalize_text (ofString "SulAmerica")).length = 10 ∧
    _deterministic_match ⟨ofString "Sul América anuncia resultado", [], [], none⟩
      [⟨2, ofString "SulAmerica", [], true⟩] = [] := by
  refine ⟨by decide, by decide, by decide⟩

/-- C5 (amended): deterministic matching is whole-word-boundary, not
substring. An insurer whose normalized name is "sul" is never matched (in
particular not inside "consultoria"): the 4-character minimum skips it.
A 6-character name normalizing to "consul" is not matched inside
"consultoria" either, showing the word-boundary test proper. And accent
normalization does work when the word shapes agree: the insurer name
"SulAmérica" matches the article text "SulAmerica anuncia resultado". -/
theorem c5_word_boundary (ins : Insurer) (article : Article)
    (hsul : _normalize_text ins.name = ofString "sul") :
    ins.id ∉ _deterministic_match article [ins] ∧
    wordBoundarySearch (ofString "consul") (ofString "consultoria") = false ∧
    _deterministic_match ⟨ofString "SulAmerica anuncia resultado", [], [], none⟩
      [⟨2, ofString "SulAmérica", [], true⟩] = [2] := by
  refine ⟨?_, by decide, by decide⟩
  exact short_name_never_matched article [ins] ins.id
    (by intro i hmem _; simp at hmem; rw [hmem, hsul]; decide)

/-- Witness for C5 (amended) at the concrete "Sul"-named insurer. -/
theorem c5_word_boundary_witness :
    (3 : Int) ∉ _deterministic_match ⟨ofString "consultoria", [], [], none⟩
      [⟨3, ofString "Sul", [], true⟩] :=
  (c5_word_boundary ⟨3, ofString "Sul", [], true⟩ ⟨ofString "consultoria", [], [], none⟩
    (by decide)).1

theorem combining_false {c : Nat} (h : c < 768 ∨ 879 < c) : combiningChar c = false := by
  simp [combiningChar]; omega

theorem nfkd_default {c : Nat} (h : c < 192 ∨ 255 < c) : nfkdChar c = [c] := by
  unfold nfkdChar; rw [if_pos h]

theorem toLower_default {c : Nat} (h : 256 ≤ c) : toLowerChar c = c := by
  unfold toLowerChar; rw [if_neg (by omega), if_neg (by omega)]

set_option maxRecDepth 4000 in
theorem good_small : ∀ c, c < 256 → ∀ d, d ∈ nfkdChar c → combiningChar d = false →
    nfkdChar (toLowerChar d) = [toLowerChar d] ∧ combiningChar (toLowerChar d) = false ∧
    toLowerChar (toLowerChar d) = toLowerChar d := by decide

theorem good_pipeline {c d : Nat} (hd : d ∈ nfkdChar c) (hcomb : combiningChar d = false) :
    nfkdChar (toLowerChar d) = [toLowerChar d] ∧ combiningChar (toLowerChar d) = false ∧
    toLowerChar (toLowerChar d) = toLowerChar d := by
  by_cases hc : c < 256
  · exact good_small c hc d hd hcomb
  · rw [nfkd_default (Or.inr (by omega))] at hd
    simp only [List.mem_cons, List.not_mem_nil, or_false] at hd
    subst hd
    rw [toLower_default (by omega)]
    exact ⟨nfkd_default (Or.inr (by omega)), hcomb, toLower_default (by omega)⟩

theorem dropWhile_idem (p : Nat → Bool) (l : List Nat) :
    (l.dropWhile p).dropWhile p = l.dropWhile p := by
  induction l with
  | nil => rfl
  | cons a l ih => by_cases h : p a <;> simp [List.dropWhile_cons, h, ih]

theorem dropWhile_head_false {p : Nat → Bool} {a : Nat} {s : List Nat}
    (h : (a :: s).dropWhile p = a :: s) : p a = false := by
  by_cases hp : p a
  · rw [List.dropWhile_cons, if_pos hp] at h
    have hle : (List.dropWhile p s).length ≤ s.length := (List.dropWhile_sublist _).length_le
    rw [h] at hle
    simp at hle
  · simpa using hp

theorem dropWhile_prefix_fix {p : Nat → Bool} {u m t : List Nat}
    (hfix : u.dropWhile p = u) (heq : u = m ++ t) : m.dropWhile p = m := by
  cases m with
  | nil => rfl
  | cons a m2 =>
    have : p a = false := by
      apply dropWhile_head_false (s := m2 ++ t)
      rw [← List.cons_append, ← heq]
      exact hfix
    rw [List.dropWhile_cons, if_neg (by simp [this])]

theorem stripWs_idem (l : List Nat) : stripWs (stripWs l) = stripWs l := by
  unfold stripWs
  obtain ⟨t, ht⟩ := List.dropWhile_suffix (l := (l.dropWhile isSpaceChar).reverse) isSpaceChar
  have hu_eq : l.dropWhile isSpaceChar =
      ((l.dropWhile isSpaceChar).reverse.dropWhile isSpaceChar).reverse ++ t.reverse := by
    have h2 := congrArg List.reverse ht
    simpa [List.reverse_append] using h2.symm
  have hA : (((l.dropWhile isSpaceChar).reverse.dropWhile isSpaceChar).reverse).dropWhile
      isSpaceChar = ((l.dropWhile isSpaceChar).reverse.dropWhile isSpaceChar).reverse :=
    dropWhile_prefix_fix (dropWhile_idem _ _) hu_eq
  rw [hA, List.reverse_reverse, dropWhile_idem]

theorem pipeline_of_good {t : List Nat}
    (hg : ∀ e ∈ t, nfkdChar e = [e] ∧ combiningChar e = false ∧ toLowerChar e = e) :
    ((t.flatMap nfkdChar).filter (fun c => !combiningChar c)).map toLowerChar = t := by
  induction t with
  | nil => rfl
  | cons a t ih =>
    obtain ⟨h1, h2, h3⟩ := hg a (List.mem_cons_self _ _)
    rw [List.flatMap_cons, List.filter_append, List.map_append, h1]
    rw [ih (fun e he => hg e (List.mem_cons_of_mem _ he))]
    simp [h2, h3]

theorem stripWs_subset (l : List Nat) : stripWs l ⊆ l := by
  intro x hx
  unfold stripWs at hx
  rw [List.mem_reverse] at hx
  have h1 := (List.dropWhile_sublist (l := (l.dropWhile isSpaceChar).reverse) isSpaceChar).mem hx
  rw [List.mem_reverse] at h1
  exact (List.dropWhile_sublist _).mem h1

theorem mem_normalize_good {s : List Nat} {e : Nat} (he : e ∈ _normalize_text s) :
    nfkdChar e = [e] ∧ combiningChar e = false ∧ toLowerChar e = e := by
  unfold _normalize_text at he
  by_cases hs : s = []
  · simp [hs] at he
  · rw [if_neg hs] at he
    have he2 := stripWs_subset _ he
    obtain ⟨d, hd, rfl⟩ := List.mem_map.1 he2
    obtain ⟨hdmem, hdcomb⟩ := List.mem_filter.1 hd
    obtain ⟨c, _, hdc⟩ := List.mem_flatMap.1 hdmem
    exact good_pipeline hdc (by simpa using hdcomb)

/-- C9: text normalization is idempotent and total: normalizing twice
equals normalizing once for every string, and empty or `None` input yields
the empty string (no exception paths exist; the function is total). -/
theorem c9_normalize_idempotent :
    (∀ s : List Nat, _normalize_text (_normalize_text s) = _normalize_text s) ∧
    _normalize_text_opt none = [] ∧ _normalize_text [] = [] := by
  refine ⟨?_, rfl, rfl⟩
  intro s
  by_cases hs : s = []
  · rw [hs]; rfl
  · have hmid : _normalize_text s =
        stripWs (((s.flatMap nfkdChar).filter (fun c => !combiningChar c)).map toLowerChar) := by
      unfold _normalize_text
      rw [if_neg hs]
    by_cases hm : _normalize_text s = []
    · rw [hm]; rfl
    · conv_lhs => rw [_normalize_text]
      rw [if_neg hm]
      rw [pipeline_of_good (fun e he => mem_normalize_good he)]
      rw [hmid, stripWs_idem]

/-- C7: for three articles whose pairwise similarities satisfy A-B and B-C
at least the threshold (a closed lower bound: equality counts) but A-C below
it, `deduplicate` places all three indices in one union-find group and
returns a single merged representative — group membership is the transitive
closure of the similarity-at-least-threshold relation chained through B. -/
theorem c7_transitive_merge (sim : Nat → Nat → ℚ) (t : ℚ) (a b c : Article)
    (h01 : t ≤ sim 0 1) (h12 : t ≤ sim 1 2) (h02 : sim 0 2 < t) :
    (dedupGroups sim t 3).map Prod.snd = [[0, 1, 2]] ∧
    deduplicate sim t [a, b, c] = [_merge_articles [a, b, c] [0, 1, 2]] := by
  have e1 : dedupParent sim t 3 = [1, 2, 2] := by
    unfold dedupParent
    rw [show simPairs 3 = [(0, 1), (0, 2), (1, 2)] from rfl]
    rw [List.foldl_cons, if_pos h01]
    rw [show ufUnion (List.range 3) 0 1 = [1, 1, 2] from rfl]
    rw [List.foldl_cons, if_neg (not_le.2 h02)]
    rw [List.foldl_cons, if_pos h12]
    rw [show ufUnion [1, 1, 2] 1 2 = [1, 2, 2] from rfl]
    rw [List.foldl_nil]
  have e2 : dedupGroups sim t 3 = [(2, [0, 1, 2])] := by
    unfold dedupGroups
    rw [e1]
    rfl
  refine ⟨by rw [e2]; rfl, ?_⟩
  unfold deduplicate
  rw [if_neg (by simp)]
  rw [show ([a, b, c] : List Article).length = 3 from rfl, e2]
  rw [List.foldl_cons, List.foldl_nil]
  unfold outStep
  rw [if_pos (by simp)]
  rfl

/-- Witness for C7: concrete similarities 0.85 (exactly the threshold,
demonstrating the closed bound), 0.9 and 0 chain all three articles into
one group. -/
theorem c7_witness :
    (dedupGroups (fun i j => if i = 0 ∧ j = 1 then (0.85 : ℚ) else if i = 1 ∧ j = 2 then 0.9 else 0)
        0.85 3).map Prod.snd = [[0, 1, 2]] :=
  (c7_transitive_merge _ 0.85 default default default
    (by norm_num) (by norm_num) (by norm_num)).1

theorem addToGroup_flatten (gs : List (Nat × List Nat)) (root i : Nat) :
    ((addToGroup gs root i).map Prod.snd).flatten.Perm ((gs.map Prod.snd).flatten ++ [i]) := by
  induction gs with
  | nil => simp [addToGroup]
  | cons g rest ih =>
    rw [addToGroup]
    by_cases h : g.1 = root
    · rw [if_pos h]
      simp only [List.map_cons, List.flatten_cons]
      rw [List.append_assoc, List.append_assoc]
      exact List.Perm.append_left _ List.perm_append_comm
    · rw [if_neg h]
      simp only [List.map_cons, List.flatten_cons]
      rw [List.append_assoc]
      exact List.Perm.append_left _ ih

theorem addToGroup_ne_nil {gs : List (Nat × List Nat)}
    (hne : ∀ g ∈ gs, g.2 ≠ ([] : List Nat)) (root i : Nat) :
    ∀ g ∈ addToGroup gs root i, g.2 ≠ [] := by
  induction gs with
  | nil => simp [addToGroup]
  | cons g0 rest ih =>
    rw [addToGroup]
    by_cases h : g0.1 = root
    · rw [if_pos h]
      intro g hg
      rcases List.mem_cons.1 hg with rfl | hg2
      · simp
      · exact hne g (List.mem_cons_of_mem _ hg2)
    · rw [if_neg h]
      intro g hg
      rcases List.mem_cons.1 hg with rfl | hg2
      · exact hne g (List.mem_cons_self _ _)
      · exact ih (fun g2 hg2b => hne g2 (List.mem_cons_of_mem _ hg2b)) g hg2

theorem groupFold_flatten (l : List Nat) :
    ∀ (gs : List (Nat × List Nat)) (p : List Nat),
      (((l.foldl groupStep (gs, p)).1.map Prod.snd).flatten).Perm
        ((gs.map Prod.snd).flatten ++ l) := by
  induction l with
  | nil => intro gs p; simp
  | cons i l ih =>
    intro gs p
    rw [List.foldl_cons]
    show (((l.foldl groupStep (groupStep (gs, p) i)).1.map Prod.snd).flatten).Perm _
    rw [show groupStep (gs, p) i =
      (addToGroup gs (ufFind p.length p i).1 i, (ufFind p.length p i).2) from rfl]
    refine (ih _ _).trans ?_
    refine (List.Perm.append_right l (addToGroup_flatten gs _ i)).trans ?_
    rw [List.append_assoc]
    exact List.Perm.refl _

theorem groupFold_ne_nil (l : List Nat) :
    ∀ (gs : List (Nat × List Nat)) (p : List Nat),
      (∀ g ∈ gs, g.2 ≠ ([] : List Nat)) →
      ∀ g ∈ (l.foldl groupStep (gs, p)).1, g.2 ≠ [] := by
  induction l with
  | nil => intro gs p h; simpa using h
  | cons i l ih =>
    intro gs p h
    rw [List.foldl_cons]
    exact ih _ _ (addToGroup_ne_nil h _ i)

theorem dedupGroups_flatten (sim : Nat → Nat → ℚ) (t : ℚ) (n : Nat) :
    (((dedupGroups sim t n).map Prod.snd).flatten).Perm (List.range n) := by
  unfold dedupGroups
  simpa using groupFold_flatten (List.range n) [] (dedupParent sim t n)

theorem dedupGroups_ne_nil (sim : Nat → Nat → ℚ) (t : ℚ) (n : Nat) :
    ∀ g ∈ dedupGroups sim t n, g.2 ≠ [] := by
  unfold dedupGroups
  exact groupFold_ne_nil (List.range n) [] (dedupParent sim t n) (by simp)

theorem outStep_eq (articles : List Article) (acc : List Article) (g : Nat × List Nat) :
    outStep articles acc g = acc ++
      [if 1 < g.2.length then _merge_articles articles g.2
       else articles.getD g.2.headI default] := by
  unfold outStep
  split_ifs <;> rfl

theorem outFold_eq (articles : List Article) (gs : List (Nat × List Nat)) :
    ∀ acc, gs.foldl (outStep articles) acc = acc ++
      gs.map (fun g => if 1 < g.2.length then _merge_articles articles g.2
                       else articles.getD g.2.headI default) := by
  induction gs with
  | nil => intro acc; simp
  | cons g rest ih =>
    intro acc
    rw [List.foldl_cons, outStep_eq, ih, List.map_cons, List.append_assoc]
    rfl

theorem length_le_flatten {gs : List (Nat × List Nat)}
    (h : ∀ g ∈ gs, g.2 ≠ ([] : List Nat)) :
    gs.length ≤ ((gs.map Prod.snd).flatten).length := by
  induction gs with
  | nil => simp
  | cons g rest ih =>
    simp only [List.map_cons, List.flatten_cons, List.length_cons, List.length_append]
    have h1 : 0 < g.2.length :=
      List.length_pos.2 (h g (List.mem_cons_self _ _))
    have h2 := ih (fun g2 hg2 => h g2 (List.mem_cons_of_mem _ hg2))
    omega

/-- C10: `deduplicate` partitions its input: the group index lists form a
permutation of all article indices (each index in exactly one group, sizes
summing to the input length), every group is non-empty, the output holds
exactly one article per group (a merge for groups larger than 1, the
article itself for singletons), the output length never exceeds the input
length and is at least 1 for non-empty input, and inputs of length 0 or 1
are returned unchanged. -/
theorem c10_partition (sim : Nat → Nat → ℚ) (t : ℚ) (articles : List Article) :
    (articles.length ≤ 1 → deduplicate sim t articles = articles) ∧
    (((dedupGroups sim t articles.length).map Prod.snd).flatten).Perm
      (List.range articles.length) ∧
    (∀ g ∈ dedupGroups sim t articles.length, g.2 ≠ []) ∧
    (1 < articles.length →
      deduplicate sim t articles =
        (dedupGroups sim t articles.length).map
          (fun g => if 1 < g.2.length then _merge_articles articles g.2
                    else articles.getD g.2.headI default)) ∧
    (deduplicate sim t articles).length ≤ articles.length ∧
    (1 ≤ articles.length → 1 ≤ (deduplicate sim t articles).length) := by
  have hperm := dedupGroups_flatten sim t articles.length
  have hne := dedupGroups_ne_nil sim t articles.length
  have hout : 1 < articles.length →
      deduplicate sim t articles =
        (dedupGroups sim t articles.length).map
          (fun g => if 1 < g.2.length then _merge_articles articles g.2
                    else articles.getD g.2.headI default) := by
    intro h
    unfold deduplicate
    rw [if_neg (by omega)]
    simpa using outFold_eq articles (dedupGroups sim t articles.length) []
  have hglen : (dedupGroups sim t articles.length).length ≤ articles.length := by
    have h1 := length_le_flatten hne
    have h2 := hperm.length_eq
    rw [List.length_range] at h2
    omega
  refine ⟨fun h => by unfold deduplicate; rw [if_pos h], hperm, hne, hout, ?_, ?_⟩
  · by_cases h : articles.length ≤ 1
    · rw [show deduplicate sim t articles = articles from by unfold deduplicate; rw [if_pos h]]
    · have h2 : 1 < articles.length := by omega
      rw [hout h2, List.length_map]
      exact hglen
  · intro h1
    by_cases h : articles.length ≤ 1
    · rw [show deduplicate sim t articles = articles from by unfold deduplicate; rw [if_pos h]]
      exact h1
    · have h2 : 1 < articles.length := by omega
      rw [hout h2, List.length_map]
      by_contra hc
      push_neg at hc
      have hnil : dedupGroups sim t articles.length = [] := List.length_eq_zero.1 (by omega)
      rw [hnil] at hperm
      simp at hperm
      rw [hperm] at h2
      simp at h2

/-- Witness for C10 at a concrete two-article input with no similar pairs. -/
theorem c10_partition_witness :
    1 ≤ ([⟨ofString "a", [], ofString "X", none⟩,
          ⟨ofString "b", [], ofString "Y", none⟩] : List Article).length ∧
    1 ≤ (deduplicate (fun _ _ => 0) 0.85
          [⟨ofString "a", [], ofString "X", none⟩,
           ⟨ofString "b", [], ofString "Y", none⟩]).length :=
  ⟨by decide,
   (c10_partition (fun _ _ => 0) 0.85
      [⟨ofString "a", [], ofString "X", none⟩,
       ⟨ofString "b", [], ofString "Y", none⟩]).2.2.2.2.2 (by decide)⟩

theorem pubKeyLe_refl (a : Article) : pubKeyLe a a = true := by
  unfold pubKeyLe
  cases a.published_at <;> simp

instance : IsTotal Article (fun a b => pubKeyLe a b = true) where
  total := by
    rintro ⟨_, _, _, pa⟩ ⟨_, _, _, pb⟩
    unfold pubKeyLe
    cases pa <;> cases pb <;> simp <;> omega

instance : IsTrans Article (fun a b => pubKeyLe a b = true) where
  trans := by
    rintro ⟨_, _, _, pa⟩ ⟨_, _, _, pb⟩ ⟨_, _, _, pc⟩ hab hbc
    unfold pubKeyLe at hab hbc ⊢
    cases pa <;> cases pb <;> cases pc <;> simp_all <;> omega

theorem sortByDate_perm (l : List Article) : (sortByDate l).Perm l :=
  List.perm_insertionSort _ l

theorem sortByDate_sorted (l : List Article) :
    List.Sorted (fun a b => pubKeyLe a b = true) (sortByDate l) :=
  List.sorted_insertionSort _ l

theorem sorted_head_le {l : List Article} {x : Article}
    (hs : List.Sorted (fun a b => pubKeyLe a b = true) l) (hx : x ∈ l) :
    pubKeyLe l.headI x = true := by
  cases l with
  | nil => cases hx
  | cons a rest =>
    rcases List.mem_cons.1 hx with rfl | hx2
    · exact pubKeyLe_refl _
    · exact (List.sorted_cons.1 hs).1 x hx2

theorem dedupSources_general (l : List Article) :
    ∀ acc : List (List Nat),
      l.foldl (fun sources a =>
        if a.source_name ∈ sources then sources else sources ++ [a.source_name]) acc =
      acc ++ specDedupFirst ((l.map Article.source_name).filter (fun s => s ∉ acc)) := by
  induction l with
  | nil => intro acc; simp [specDedupFirst]
  | cons a l ih =>
    intro acc
    rw [List.foldl_cons]
    by_cases h : a.source_name ∈ acc
    · rw [if_pos h, ih]
      have he : ((a :: l).map Article.source_name).filter (fun s => s ∉ acc) =
          (l.map Article.source_name).filter (fun s => s ∉ acc) := by
        rw [List.map_cons, List.filter_cons]
        simp [h]
      rw [he]
    · rw [if_neg h, ih, List.append_assoc]
      have he : ((a :: l).map Article.source_name).filter (fun s => s ∉ acc) =
          a.source_name :: (l.map Article.source_name).filter (fun s => s ∉ acc) := by
        rw [List.map_cons, List.filter_cons]
        simp [h]
      have he2 : ((l.map Article.source_name).filter (fun s => s ∉ acc)).filter
            (fun y => y ≠ a.source_name) =
          (l.map Article.source_name).filter (fun s => s ∉ acc ++ [a.source_name]) := by
        rw [List.filter_filter]
        apply List.filter_congr
        intro s _
        by_cases h1 : s = a.source_name <;> by_cases h2 : s ∈ acc <;>
          simp [h1, h2, List.mem_append]
      rw [he, specDedupFirst, he2]
      simp

theorem dedupSources_eq (l : List Article) :
    dedupSources l = specDedupFirst (l.map Article.source_name) := by
  unfold dedupSources
  rw [dedupSources_general, List.nil_append]
  have he : (l.map Article.source_name).filter (fun s => s ∉ ([] : List (List Nat))) =
      l.map Article.source_name :=
    List.filter_eq_self.2 (by simp)
  rw [he]

theorem pickLonger_first_max (d0 : List Nat) (rest : List (List Nat)) :
    ∃ pre suf, d0 :: rest = pre ++ (rest.foldl pickLonger d0) :: suf ∧
      (∀ d ∈ pre, d.length < (rest.foldl pickLonger d0).length) ∧
      (∀ d ∈ d0 :: rest, d.length ≤ (rest.foldl pickLonger d0).length) := by
  induction rest generalizing d0 with
  | nil => exact ⟨[], [], rfl, by simp, by simp⟩
  | cons d rest ih =>
    rw [List.foldl_cons]
    by_cases h : d0.length < d.length
    · rw [show pickLonger d0 d = d from by unfold pickLonger; rw [if_pos h]]
      obtain ⟨pre, suf, heq, hpre, hall⟩ := ih d
      refine ⟨d0 :: pre, suf, by rw [List.cons_append, ← heq], ?_, ?_⟩
      · intro x hx
        rcases List.mem_cons.1 hx with rfl | hx2
        · exact lt_of_lt_of_le h (hall d (List.mem_cons_self _ _))
        · exact hpre x hx2
      · intro x hx
        rcases List.mem_cons.1 hx with rfl | hx2
        · exact le_of_lt (lt_of_lt_of_le h (hall d (List.mem_cons_self _ _)))
        · exact hall x hx2
    · rw [show pickLonger d0 d = d0 from by unfold pickLonger; rw [if_neg h]]
      obtain ⟨pre, suf, heq, hpre, hall⟩ := ih d0
      cases pre with
      | nil =>
        rw [List.nil_append] at heq
        injection heq with h1 h2
        refine ⟨[], d :: suf, ?_, by simp, ?_⟩
        · rw [List.nil_append, ← h1, h2]
        · intro x hx
          rcases List.mem_cons.1 hx with rfl | hx2
          · exact hall x (List.mem_cons_self _ _)
          rcases List.mem_cons.1 hx2 with rfl | hx3
          · have hd0 := hall d0 (List.mem_cons_self _ _)
            omega
          · exact hall x (List.mem_cons_of_mem _ hx3)
      | cons p0 pre2 =>
        rw [List.cons_append] at heq
        injection heq with h1 h2
        have hd0 : d0.length < (rest.foldl pickLonger d0).length := by
          have h3 := hpre p0 (List.mem_cons_self _ _)
          rw [← h1] at h3
          exact h3
        refine ⟨d0 :: d :: pre2, suf, ?_, ?_, ?_⟩
        · rw [List.cons_append, List.cons_append, ← h2]
        · intro x hx
          rcases List.mem_cons.1 hx with rfl | hx2
          · exact hd0
          rcases List.mem_cons.1 hx2 with rfl | hx3
          · omega
          · exact hpre x (List.mem_cons_of_mem _ hx3)
        · intro x hx
          rcases List.mem_cons.1 hx with rfl | hx2
          · exact hall x (List.mem_cons_self _ _)
          rcases List.mem_cons.1 hx2 with rfl | hx3
          · have hd0b := hall d0 (List.mem_cons_self _ _)
            omega
          · exact hall x (List.mem_cons_of_mem _ hx3)

/-- C8: for every duplicate group of size greater than 1, `_merge_articles`
sorts the group ascending by `published_at` with missing timestamps last
(the sort is a permutation of the group, pairwise ordered, and its head is
minimal); the merged article keeps the base fields (title, published_at) of
the earliest article; its `source_name` is the comma-plus-space join of the
distinct source names in ascending-date order keeping first occurrences;
and its description is the first longest non-empty description in sorted
order (every earlier description is strictly shorter, every description is
no longer), falling back to the base description when no description is
non-empty. -/
theorem c8_merge_field_selection (articles : List Article) (indices : List Nat)
    (hlen : 1 < indices.length) :
    (sorted_articles articles indices).Perm (group_articles articles indices) ∧
    List.Sorted (fun a b => pubKeyLe a b = true) (sorted_articles articles indices) ∧
    (_merge_articles articles indices).title =
      (sorted_articles articles indices).headI.title ∧
    (_merge_articles articles indices).published_at =
      (sorted_articles articles indices).headI.published_at ∧
    (∀ a ∈ group_articles articles indices,
      pubKeyLe (sorted_articles articles indices).headI a = true) ∧
    (_merge_articles articles indices).source_name =
      List.intercalate [44, 32]
        (specDedupFirst ((sorted_articles articles indices).map Article.source_name)) ∧
    (merge_descriptions articles indices = [] →
      (_merge_articles articles indices).description =
        (sorted_articles articles indices).headI.description) ∧
    (merge_descriptions articles indices ≠ [] →
      ∃ pre suf,
        merge_descriptions articles indices =
          pre ++ (_merge_articles articles indices).description :: suf ∧
        (∀ d ∈ pre, d.length < (_merge_articles articles indices).description.length) ∧
        (∀ d ∈ merge_descriptions articles indices,
          d.length ≤ (_merge_articles articles indices).description.length)) := by
  have hperm : (sorted_articles articles indices).Perm (group_articles articles indices) :=
    sortByDate_perm _
  have hsorted : List.Sorted (fun a b => pubKeyLe a b = true)
      (sorted_articles articles indices) := sortByDate_sorted _
  refine ⟨hperm, hsorted, ?_, ?_, ?_, ?_, ?_, ?_⟩
  · cases hd : merge_descriptions articles indices <;> simp [_merge_articles, hd]
  · cases hd : merge_descriptions articles indices <;> simp [_merge_articles, hd]
  · intro a ha
    exact sorted_head_le hsorted (hperm.mem_iff.2 ha)
  · cases hd : merge_descriptions articles indices <;>
      simp [_merge_articles, hd, dedupSources_eq]
  · intro h
    simp [_merge_articles, h]
  · intro h
    cases hd : merge_descriptions articles indices with
    | nil => exact absurd hd h
    | cons d rest =>
      have hres : (_merge_articles articles indices).description = rest.foldl pickLonger d := by
        simp [_merge_articles, hd]
      rw [hres]
      exact pickLonger_first_max d rest

/-- Witness for C8 at the spec §8.9 two-article group: X earlier with the
short description, Y later with the longer one. -/
theorem c8_merge_field_selection_witness :
    (_merge_articles
        [⟨ofString "t1", ofString "curta", ofString "Fonte A", some 1⟩,
         ⟨ofString "t2", ofString "descricao bem mais longa", ofString "Fonte B", some 2⟩]
        [0, 1]).source_name =
      List.intercalate [44, 32]
        (specDedupFirst
          ((sorted_articles
              [⟨ofString "t1", ofString "curta", ofString "Fonte A", some 1⟩,
               ⟨ofString "t2", ofString "descricao bem mais longa", ofString "Fonte B", some 2⟩]
              [0, 1]).map Article.source_name)) :=
  (c8_merge_field_selection
    [⟨ofString "t1", ofString "curta", ofString "Fonte A", some 1⟩,
     ⟨ofString "t2", ofString "descricao bem mais longa", ofString "Fonte B", some 2⟩]
    [0, 1] (by decide)).2.2.2.2.2.1

/-- Witness for C3 at the concrete [5, 999]-versus-context-1,5,9 input. -/
theorem c3_hallucination_guard_witness :
    (ai_match true ⟨ofString "Caso ambíguo", [], [], none⟩
        [⟨1, ofString "Alfa Seguros", [], true⟩, ⟨5, ofString "Beta Seguros", [], true⟩,
         ⟨9, ofString "Gama Seguros", [], true⟩]
        none (Except.ok ⟨[5, 999], 0.9, ofString "menciona Beta"⟩)).1.insurer_ids = [5] :=
  c3_hallucination_guard.2

/-- Witness for C4 (amended) at a concrete unconfigured call. -/
theorem c4_ai_unavailable_witness :
    ai_match false ⟨ofString "Título", [], [], none⟩ [] none
        (Except.error (ofString "boom")) =
      ({ insurer_ids := [], confidence := 0, method := MatchMethod.unmatched,
         reasoning := ofString "AI matching unavailable — Azure OpenAI not configured" },
       []) :=
  c4_ai_unavailable ⟨ofString "Título", [], [], none⟩ [] none (Except.error (ofString "boom"))

/-- Witness for C9 at a concrete accented, padded string. -/
theorem c9_normalize_idempotent_witness :
    _normalize_text (_normalize_text (ofString "  SulAmérica  ")) =
      _normalize_text (ofString "  SulAmérica  ") :=
  c9_normalize_idempotent.1 (ofString "  SulAmérica  ")
